import Mathlib

/-!
Shallow embedding of the insurance-coverage query pipeline
(repository files `src/app.py` and `src/query.py`).

The two Python files are near-duplicate snapshots of the same program.
Namespace `Query` embeds `src/query.py`; namespace `App` embeds
`src/app.py`.  Queries and documents are modelled as `String` /
`List Char`; Python's `re.search` is modelled by trying the pattern at
every start position from the left (leftmost-match semantics), with one
hand-written matcher per concrete regular expression of the source.
`re.IGNORECASE` on the ASCII-only patterns of the source is modelled by
ASCII lowercasing (`lowc`).
-/

/-- ASCII lowercasing, as Python's `re.IGNORECASE` acts on the ASCII
patterns used by the source. -/
def lowc (c : Char) : Char :=
  if 65 ≤ c.toNat ∧ c.toNat ≤ 90 then Char.ofNat (c.toNat + 32) else c

/-- `\d` : ASCII decimal digit. -/
def isDigitB (c : Char) : Bool := decide (48 ≤ c.toNat ∧ c.toNat ≤ 57)

/-- `[a-zA-Z]`. -/
def isAlphaB (c : Char) : Bool :=
  decide ((65 ≤ c.toNat ∧ c.toNat ≤ 90) ∨ (97 ≤ c.toNat ∧ c.toNat ≤ 122))

/-- `\w` (ASCII part): letter, digit or underscore. -/
def isWordB (c : Char) : Bool := isAlphaB c || isDigitB c || decide (c = '_')

/-- `\s` (ASCII part): the whitespace characters Python's `\s` and
`str.strip()` recognise in ASCII text. -/
def isSpaceB (c : Char) : Bool :=
  decide (c = ' ' ∨ c = '\t' ∨ c = '\n' ∨ c = '\x0d' ∨ c = '\x0b' ∨ c = '\x0c')

/-- Numeric value of a digit character. -/
def digitVal (c : Char) : Nat := c.toNat - 48

/-- Python `int` on a non-empty decimal digit string. -/
def natOfDigits (ds : List Char) : Nat :=
  ds.foldl (fun a c => 10 * a + digitVal c) 0

/-- Match the literal word `pat` case-insensitively at the head of `s`,
returning the remainder on success. -/
def eatCI : List Char → List Char → Option (List Char)
  | [], s => some s
  | _ :: _, [] => none
  | p :: ps, c :: cs => if lowc p = lowc c then eatCI ps cs else none

/-- `pat` matches case-insensitively at the head of `s`. -/
def ciStartsB (pat s : List Char) : Bool := (eatCI pat s).isSome

/-- `re.search(pat, s)` succeeds: `pat` (a literal) occurs
case-insensitively somewhere in `s`. -/
def ciSearchB (pat : List Char) : List Char → Bool
  | [] => ciStartsB pat []
  | c :: t => ciStartsB pat (c :: t) || ciSearchB pat t

/-- The optional separator `[- ]?` of the source's regexes.  Each use is
followed by a literal letter, so the greedy optional never needs
backtracking: consume a single `-` or space when present. -/
def sepOpt : List Char → List Char
  | [] => []
  | c :: t => if c = '-' ∨ c = ' ' then t else c :: t

/-- Try a position-indexed matcher at every position `i0, i0+1, ...`
(at most `fuel` of them), returning the first hit: the regex engine's
left-to-right scan. -/
def scanFirst (g : Nat → Option α) : Nat → Nat → Option α
  | _, 0 => none
  | i, fuel + 1 =>
    match g i with
    | some v => some v
    | none => scanFirst g (i + 1) fuel

/-- The tail `[- ]?year[- ]?old` of the age regex. -/
def yearOldB (s : List Char) : Bool :=
  match eatCI ['y', 'e', 'a', 'r'] (sepOpt s) with
  | none => false
  | some r => (eatCI ['o', 'l', 'd'] (sepOpt r)).isSome

/-- Alternative 1 of the age regex, `(\d{2})[- ]?year[- ]?old`, matched
at the head of `s`; returns the captured two-digit number. -/
def tryAge1 : List Char → Option Nat
  | c1 :: c2 :: rest =>
    if isDigitB c1 && isDigitB c2 && yearOldB rest then
      some (10 * digitVal c1 + digitVal c2)
    else none
  | _ => none

/-- Alternative 2 of `src/query.py`'s age regex, `\b(\d{2})M\b`, matched
at the head of `s`; `prev` is the character before the current position
(`none` at the start of the string), used for the left word boundary. -/
def tryAgeM (prev : Option Char) : List Char → Option Nat
  | c1 :: c2 :: c3 :: rest =>
    if (match prev with | none => true | some c => !isWordB c)
        && isDigitB c1 && isDigitB c2 && decide (lowc c3 = 'm')
        && (match rest with | [] => true | c4 :: _ => !isWordB c4) then
      some (10 * digitVal c1 + digitVal c2)
    else none
  | _ => none

/-- The full age alternation of `src/query.py`,
`(\d{2})[- ]?year[- ]?old|\b(\d{2})M\b`, at one position; Python tries
the alternatives left to right.  The value is
`int(group(1) or group(2))`. -/
def tryAge (prev : Option Char) (s : List Char) : Option Nat :=
  match tryAge1 s with
  | some v => some v
  | none => tryAgeM prev s

/-- Character before position `i`, for word-boundary tests. -/
def prevChar (s : List Char) (i : Nat) : Option Char :=
  if i = 0 then none else s[i - 1]?

/-- The age alternation tried at position `i` of `s`. -/
def ageMatchAt (s : List Char) (i : Nat) : Option Nat :=
  tryAge (prevChar s i) (s.drop i)

/-- The location regex `in\s+([a-zA-Z]+)` at the head of `s`; returns
the captured alphabetic run.  Both `\s+` and `[a-zA-Z]+` are greedy and
never need backtracking (whitespace is not alphabetic). -/
def tryLoc (s : List Char) : Option String :=
  match eatCI ['i', 'n'] s with
  | none => none
  | some r =>
    let sp := r.takeWhile isSpaceB
    if sp = [] then none
    else
      let r2 := r.drop sp.length
      let al := r2.takeWhile isAlphaB
      if al = [] then none else some (String.mk al)

/-- `src/query.py`'s duration regex
`(\d+)[- ]?(month|mo)[- ]?(policy|old)?` at the head of `s`; returns
`int(group(1))`.  `\d+` is greedy and the following token starts with a
letter, so the maximal digit run is the captured group; the trailing
`[- ]?(policy|old)?` is entirely optional and cannot affect whether the
pattern matches nor group 1, so it is not materialised here. -/
def tryDur (s : List Char) : Option Nat :=
  let ds := s.takeWhile isDigitB
  if ds = [] then none
  else
    let r := sepOpt (s.drop ds.length)
    if (eatCI ['m', 'o', 'n', 't', 'h'] r).isSome || (eatCI ['m', 'o'] r).isSome then
      some (natOfDigits ds)
    else none

/-- `src/app.py`'s duration regex `(\d+)[- ]?month[- ]?old` at the head
of `s` (the trailing `old` is required in this snapshot). -/
def tryDurApp (s : List Char) : Option Nat :=
  let ds := s.takeWhile isDigitB
  if ds = [] then none
  else
    match eatCI ['m', 'o', 'n', 't', 'h'] (sepOpt (s.drop ds.length)) with
    | none => none
    | some r => if (eatCI ['o', 'l', 'd'] (sepOpt r)).isSome then some (natOfDigits ds) else none

/-- `re.search` of a position-indexed matcher over the whole string. -/
def reSearch (g : Nat → Option α) (s : List Char) : Option α :=
  scanFirst g 0 (s.length + 1)

/-- The dictionary returned by `QueryParser.parse`, as an immutable
record (the Python dict always carries exactly these four keys). -/
structure ParsedQuery where
  age : Option Nat
  procedure : Option String
  location : Option String
  policy_duration_months : Option Nat
deriving DecidableEq, Repr

/-- The clause dictionaries built by `ClauseRetriever.retrieve_clauses`
(keys `"clause"` and `"document"`). -/
structure Clause where
  clause : String
  document : String
deriving DecidableEq, Repr

namespace Query

/-- `SUPPORTED_PROCEDURES` of `src/query.py` (19 entries, ends with
`"knee surgery"`). -/
def SUPPORTED_PROCEDURES : List String :=
  ["hip replacement", "knee replacement", "joint surgery", "bypass surgery", "appendectomy",
   "angioplasty", "cataract surgery", "dialysis", "organ transplant", "liver transplant",
   "kidney transplant", "cancer surgery", "spine surgery", "heart surgery",
   "craniotomy", "tumor removal", "cardiac surgery", "brain surgery", "knee surgery"]

namespace QueryParser

/-- `QueryParser.parse` of `src/query.py`.  Each procedure entry is
passed to `re.search` as a pattern, but the entries contain only
lowercase letters and spaces (no metacharacters), so the search is a
case-insensitive literal substring search.  The `for`/`break` loop over
`SUPPORTED_PROCEDURES` is `List.find?`. -/
def parse (query : String) : ParsedQuery :=
  let q := query.data
  ⟨reSearch (fun i => ageMatchAt q i) q,
   SUPPORTED_PROCEDURES.find? (fun p => ciSearchB p.data q),
   reSearch (fun i => tryLoc (q.drop i)) q,
   reSearch (fun i => tryDur (q.drop i)) q⟩

end QueryParser

end Query

namespace App

/-- `SUPPORTED_PROCEDURES` of `src/app.py` (18 entries, no
`"knee surgery"`). -/
def SUPPORTED_PROCEDURES : List String :=
  ["hip replacement", "knee replacement", "joint surgery", "bypass surgery", "appendectomy",
   "angioplasty", "cataract surgery", "dialysis", "organ transplant", "liver transplant",
   "kidney transplant", "cancer surgery", "spine surgery", "heart surgery",
   "craniotomy", "tumor removal", "cardiac surgery", "brain surgery"]

namespace QueryParser

/-- `QueryParser.parse` of `src/app.py`: age regex without the `\bddM\b`
alternative, duration regex requiring the trailing `old`. -/
def parse (query : String) : ParsedQuery :=
  let q := query.data
  ⟨reSearch (fun i => tryAge1 (q.drop i)) q,
   SUPPORTED_PROCEDURES.find? (fun p => ciSearchB p.data q),
   reSearch (fun i => tryLoc (q.drop i)) q,
   reSearch (fun i => tryDurApp (q.drop i)) q⟩

end QueryParser

end App

/-- Python `str.strip()` on the left (ASCII whitespace). -/
def trimLeft (l : List Char) : List Char := l.dropWhile isSpaceB

/-- Python `str.strip()` (ASCII whitespace). -/
def strip (l : List Char) : List Char :=
  ((trimLeft l).reverse.dropWhile isSpaceB).reverse

/-- Python `str.replace('\n', ' ')`: each newline becomes one space. -/
def replaceNL (l : List Char) : List Char :=
  l.map (fun c => if c = '\n' then ' ' else c)

/-- Python pySlice `l[a:b]` for `0 ≤ a`, clipped to the list bounds. -/
def pySlice (l : List Char) (a b : Nat) : List Char := (l.drop a).take (b - a)

/-- Match start positions produced by
`re.finditer(re.escape(proc), doc, re.IGNORECASE)`: scan left to right,
restart after each match end (non-overlapping).  `fuel` makes the scan
total; `findAll` supplies enough fuel to examine every position of
`doc`. -/
def findAllAux (pat doc : List Char) : Nat → Nat → List Nat
  | _, 0 => []
  | i, fuel + 1 =>
    if ciStartsB pat (doc.drop i) then i :: findAllAux pat doc (i + pat.length) fuel
    else findAllAux pat doc (i + 1) fuel

/-- All (non-overlapping, leftmost-first) case-insensitive match
positions of the literal `pat` in `doc`. -/
def findAll (pat doc : List Char) : List Nat := findAllAux pat doc 0 (doc.length + 1)

namespace App

namespace ClauseRetriever

/-- `ClauseRetriever.retrieve_clauses` of `src/app.py`.  The retriever
is constructed from parallel lists `documents`/`filenames` (zipped as in
the source), `if not proc` is Python's falsiness test (`None` or the
empty string), and for each match the snippet is
`doc[max(0, start-100) : min(len(doc), end+200)].strip().replace('\n', ' ')`
(natural subtraction is `max 0` and `min` clips at the right edge, so no
index is ever out of range). -/
def retrieve_clauses (documents filenames : List String)
    (parsed_query : ParsedQuery) : List Clause :=
  match parsed_query.procedure with
  | none => []
  | some proc =>
    if proc = "" then []
    else
      (documents.zip filenames).flatMap (fun df =>
        (findAll proc.data df.1.data).map (fun ms =>
          let me := ms + proc.data.length
          let a := ms - 100
          let b := min df.1.data.length (me + 200)
          ⟨String.mk (replaceNL (strip (pySlice df.1.data a b))), df.2⟩))

end ClauseRetriever

namespace DecisionEvaluator

/-- The rule-1 message of `src/app.py`'s `DecisionEvaluator.evaluate`. -/
def msgMissing : String :=
  "No, coverage cannot be determined as the procedure is missing in the query."

/-- The rule-2 (duration unspecified) message. -/
def msgCaveat (p : String) : String :=
  "Yes, " ++ p ++ " is covered under the policy (policy duration not specified, assumed valid)."

/-- The rule-3 (duration below minimum) message. -/
def msgNotCovered (p : String) (d : Nat) : String :=
  "No, " ++ p ++ " is not covered as the policy duration is only " ++ toString d ++
    " month(s) (minimum 12 months required)."

/-- The rule-4 (covered) message. -/
def msgCovered (p : String) : String :=
  "Yes, " ++ p ++ " is covered under the policy."

/-- `DecisionEvaluator.evaluate` of `src/app.py`.  `parse` always
populates the `procedure` key, so the dict-lookup default
`"The procedure"` is unreachable and the record field is read directly;
`if not procedure` is Python's falsiness test.  The `clauses` argument
is never inspected. -/
def evaluate (parsed_query : ParsedQuery) (_clauses : List Clause) : String :=
  match parsed_query.procedure with
  | none => msgMissing
  | some procedure =>
    if procedure = "" then msgMissing
    else
      match parsed_query.policy_duration_months with
      | none => msgCaveat procedure
      | some policy_duration =>
        if policy_duration < 12 then msgNotCovered procedure policy_duration
        else msgCovered procedure

end DecisionEvaluator

end App

namespace Query

namespace ClauseRetriever

/-- `ClauseRetriever.retrieve_clauses` of `src/query.py` (disabled for
the hackathon demo: always the empty list). -/
def retrieve_clauses (_parsed_query : ParsedQuery) : List Clause := []

end ClauseRetriever

namespace DecisionEvaluator

/-- `DecisionEvaluator.evaluate` of `src/query.py` (the two-rule
hackathon variant). -/
def evaluate (parsed_query : ParsedQuery) (_clauses : List Clause) : String :=
  match parsed_query.procedure with
  | none => "No, the query does not specify a valid procedure to evaluate coverage."
  | some procedure =>
    if procedure = "" then
      "No, the query does not specify a valid procedure to evaluate coverage."
    else "Yes, " ++ procedure ++ " is covered under the policy."

end DecisionEvaluator

end Query

/-- The two failure conditions of document loading: the spec's
`CorpusMissing` (source location does not exist) and `CorpusEmpty`
(location exists but yields zero readable documents). -/
inductive LoadError where
  | corpusMissing
  | corpusEmpty
deriving DecidableEq, Repr

/-- A file selected by `DocumentLoader.load_documents`: name ending in
`.txt` or `.pdf`. -/
def hasDocExt (name : String) : Bool :=
  (".txt".data.isSuffixOf name.data) || (".pdf".data.isSuffixOf name.data)

namespace Query

namespace DocumentLoader

/-- `DocumentLoader.load_documents` of `src/query.py`.  The filesystem
is passed explicitly: `none` models a non-existent folder (the function
raises `FileNotFoundError`, modelled as `CorpusMissing`); `some entries`
models the directory listing as `(filename, text)` pairs, where for a
`.pdf` the text stands for the output of the PyMuPDF page-text
extraction (a collaborator, consumed as given).  Files with any other
extension are skipped, and if no document was collected the function
raises again (`CorpusEmpty`).  Returns the parallel lists
`(docs, filenames)` in listing order. -/
def load_documents (fs : Option (List (String × String))) :
    Except LoadError (List String × List String) :=
  match fs with
  | none => .error .corpusMissing
  | some entries =>
    if entries.filter (fun e => hasDocExt e.1) = [] then .error .corpusEmpty
    else .ok ((entries.filter (fun e => hasDocExt e.1)).map (fun e => e.2),
              (entries.filter (fun e => hasDocExt e.1)).map (fun e => e.1))

end DocumentLoader

end Query

/-- The orchestrator (the Streamlit glue of both files): parse the
query, load the corpus — `st.stop()` on a loading error, i.e. the error
short-circuits the run — then retrieve clauses and evaluate.  The
clause retriever and evaluator are the live ones (`src/app.py`); the
loader is the one with the explicit existence/emptiness checks
(`src/query.py`). -/
def pipeline (query : String) (fs : Option (List (String × String))) :
    Except LoadError String :=
  let parsed_query := Query.QueryParser.parse query
  match Query.DocumentLoader.load_documents fs with
  | .error e => .error e
  | .ok docsFnames =>
    let matched_clauses :=
      App.ClauseRetriever.retrieve_clauses docsFnames.1 docsFnames.2 parsed_query
    .ok (App.DecisionEvaluator.evaluate parsed_query matched_clauses)

/-- Modelled from the spec (§4.4): the four-rule decision table, written
from the spec's words, to be compared with the code's
`DecisionEvaluator.evaluate`. -/
def decisionTable (pq : ParsedQuery) : String :=
  match pq.procedure with
  | none => App.DecisionEvaluator.msgMissing
  | some p =>
    match pq.policy_duration_months with
    | none => App.DecisionEvaluator.msgCaveat p
    | some d =>
      if d < 12 then App.DecisionEvaluator.msgNotCovered p d
      else App.DecisionEvaluator.msgCovered p

/-- Modelled from the spec (§4.3): "collapse embedded newlines to single
spaces", under C7's reading that a run of consecutive newlines becomes a
single space.  Used only to compare the spec's wording with the code's
per-character `replace`. -/
def collapseNLRuns : List Char → List Char
  | [] => []
  | '\n' :: '\n' :: t => collapseNLRuns ('\n' :: t)
  | '\n' :: t => ' ' :: collapseNLRuns t
  | c :: t => c :: collapseNLRuns t

/-- A 308-character document: 100 filler characters, the procedure name
`dialysis`, 200 filler characters.  Its single match produces a clause
of length 100 + 8 + 200 = 308. -/
def c6doc : String :=
  String.mk (List.replicate 100 'a' ++ "dialysis".data ++ List.replicate 200 'b')

/-! ## Supporting lemmas -/

/-- `parse`'s procedure field is the `find?` over the procedure list. -/
theorem Query.parse_procedure_def (q : String) :
    (Query.QueryParser.parse q).procedure =
      Query.SUPPORTED_PROCEDURES.find? (fun p => ciSearchB p.data q.data) := rfl

/-- Every entry of the procedure list is non-empty. -/
theorem Query.supported_ne_empty : ∀ p ∈ Query.SUPPORTED_PROCEDURES, p ≠ "" := by decide

/-- The parser never stores the empty string as the procedure. -/
theorem Query.parse_procedure_ne_empty (q : String) (p : String)
    (h : (Query.QueryParser.parse q).procedure = some p) : p ≠ "" := by
  rw [Query.parse_procedure_def] at h
  exact Query.supported_ne_empty p (List.mem_of_find?_eq_some h)

/-! ## Claim theorems -/

/-- C9: the Decision Evaluator's verdict does not depend on the clauses
argument: for every parsed query and any two clause lists, `evaluate`
returns the identical verdict string. -/
theorem c9_evaluate_ignores_clauses (pq : ParsedQuery) (cs1 cs2 : List Clause) :
    App.DecisionEvaluator.evaluate pq cs1 = App.DecisionEvaluator.evaluate pq cs2 := rfl

/-- C1: on every parsed query (the output of the Field Parser on any
query string) and every clause list, the Decision Evaluator follows the
four-rule decision table of the spec: procedure missing → indeterminate;
duration missing → covered with caveat; duration < 12 → not covered;
otherwise → covered. -/
theorem c1_evaluate_decision_table (q : String) (cs : List Clause) :
    App.DecisionEvaluator.evaluate (Query.QueryParser.parse q) cs =
      decisionTable (Query.QueryParser.parse q) := by
  unfold App.DecisionEvaluator.evaluate decisionTable
  rcases h : (Query.QueryParser.parse q).procedure with _ | p
  · rfl
  · have hne : p ≠ "" := Query.parse_procedure_ne_empty q p h
    simp only [if_neg hne]

/-- C2 counterexample: on the query
`"46M, knee surgery, Pune, 3-month policy"` the parser does NOT return
`location = "Pune"` (the location rule requires the word `in` before the
token, which this query lacks), refuting the claimed parse result. -/
theorem c2_counterexample :
    ¬ ((Query.QueryParser.parse "46M, knee surgery, Pune, 3-month policy").location
        = some "Pune") := by decide

/-- C2 amended: on `"46M, knee surgery, Pune, 3-month policy"` the
parser returns age 46, procedure `"knee surgery"`, location `none` and
policy duration 3, and the Decision Evaluator's verdict on that parsed
query (with any clause list) is the not-covered message citing the
3-month duration and the 12-month minimum. -/
theorem c2_amended :
    Query.QueryParser.parse "46M, knee surgery, Pune, 3-month policy" =
      ⟨some 46, some "knee surgery", none, some 3⟩ ∧
    ∀ cs : List Clause,
      App.DecisionEvaluator.evaluate
          (Query.QueryParser.parse "46M, knee surgery, Pune, 3-month policy") cs =
        "No, knee surgery is not covered as the policy duration is only 3 month(s) (minimum 12 months required)." := by
  refine ⟨by decide, fun cs => ?_⟩
  rfl

/-- C8: document loading fails with `CorpusMissing` exactly when the
source location does not exist, with `CorpusEmpty` exactly when the
location exists but yields zero readable (`.txt`/`.pdf`) documents, and
any loading error propagates: the pipeline returns it and never reaches
clause retrieval or evaluation. -/
theorem c8_loader_conditions (q : String) (fs : Option (List (String × String))) :
    (Query.DocumentLoader.load_documents fs = .error .corpusMissing ↔ fs = none) ∧
    (Query.DocumentLoader.load_documents fs = .error .corpusEmpty ↔
      ∃ entries, fs = some entries ∧ entries.filter (fun e => hasDocExt e.1) = []) ∧
    (∀ e, Query.DocumentLoader.load_documents fs = .error e → pipeline q fs = .error e) := by
  refine ⟨?_, ?_, ?_⟩
  · cases fs with
    | none => simp [Query.DocumentLoader.load_documents]
    | some entries =>
      simp only [Query.DocumentLoader.load_documents]
      by_cases hsel : entries.filter (fun e => hasDocExt e.1) = [] <;>
        simp only [if_pos, if_neg, hsel, if_true, if_false, ite_true, ite_false] <;> simp
  · cases fs with
    | none => simp [Query.DocumentLoader.load_documents]
    | some entries =>
      simp only [Query.DocumentLoader.load_documents]
      by_cases hsel : entries.filter (fun e => hasDocExt e.1) = []
      · rw [if_pos hsel]
        exact ⟨fun _ => ⟨entries, rfl, hsel⟩, fun _ => rfl⟩
      · rw [if_neg hsel]
        constructor
        · intro h; exact absurd h (by simp)
        · rintro ⟨entries', he, hf⟩
          cases Option.some.inj he
          exact absurd hf hsel
  · intro e h
    unfold pipeline
    rw [h]

/-- C8 witness: an existing but empty corpus directory makes the
pipeline abort with `CorpusEmpty` before evaluation. -/
theorem c8_loader_conditions_witness :
    pipeline "general checkup" (some []) = .error .corpusEmpty :=
  (c8_loader_conditions "general checkup" (some [])).2.2 .corpusEmpty rfl

/-- If `g` matches at position `i` inside the scanned range and at no
earlier position, the left-to-right scan returns that match. -/
theorem scanFirst_eq_some {α : Type} (g : Nat → Option α) :
    ∀ (fuel i0 i : Nat) (v : α), i0 ≤ i → i < i0 + fuel → g i = some v →
      (∀ j, i0 ≤ j → j < i → g j = none) → scanFirst g i0 fuel = some v := by
  intro fuel
  induction fuel with
  | zero =>
    intro i0 i v h1 h2 _ _
    exact absurd h2 (by omega)
  | succ fuel ih =>
    intro i0 i v h1 h2 h3 h4
    unfold scanFirst
    rcases Nat.eq_or_lt_of_le h1 with heq | hlt
    · rw [← heq] at h3
      rw [h3]
    · have h0 : g i0 = none := h4 i0 le_rfl hlt
      rw [h0]
      exact ih (i0 + 1) i v hlt (by omega) h3 (fun j hj1 hj2 => h4 j (by omega) hj2)

/-- A successful left-to-right scan yields the leftmost match: the match
position satisfies `g` and every earlier position does not. -/
theorem scanFirst_some_exists {α : Type} (g : Nat → Option α) :
    ∀ (fuel i0 : Nat) (v : α), scanFirst g i0 fuel = some v →
      ∃ i, i0 ≤ i ∧ i < i0 + fuel ∧ g i = some v ∧ ∀ j, i0 ≤ j → j < i → g j = none := by
  intro fuel
  induction fuel with
  | zero =>
    intro i0 v h
    exact absurd h (by simp [scanFirst])
  | succ fuel ih =>
    intro i0 v h
    unfold scanFirst at h
    cases hg : g i0 with
    | some w =>
      rw [hg] at h
      have hv : w = v := Option.some.inj h
      refine ⟨i0, le_rfl, by omega, by rw [hg, hv], fun j hj1 hj2 => absurd hj2 (by omega)⟩
    | none =>
      rw [hg] at h
      obtain ⟨i, hi1, hi2, hi3, hi4⟩ := ih (i0 + 1) v h
      refine ⟨i, by omega, by omega, hi3, fun j hj1 hj2 => ?_⟩
      rcases Nat.eq_or_lt_of_le hj1 with heq | hlt
      · rw [← heq]; exact hg
      · exact hi4 j hlt hj2

/-- C4 counterexample: the query `"25-year-old 46M"` contains the bare
token `46M` (the `\b(\d{2})M\b` alternative matches at position 12), yet
the parsed age is 25, not 46: the leftmost age-pattern occurrence wins,
refuting the unconditional per-pattern statements of the claim. -/
theorem c4_counterexample :
    ageMatchAt ("25-year-old 46M".data) 12 = some 46 ∧
    (Query.QueryParser.parse "25-year-old 46M").age = some 25 ∧
    (some 25 : Option Nat) ≠ some 46 := by decide

/-- C4 amended: the age is taken from the leftmost occurrence of the age
alternation (2-digit number with a `year[- ]old` tail, or a bare
`<N>M` token): if the alternation matches at position `i` with value `n`
and at no earlier position, `parse` sets age to `n`.  Each original
conjunct holds whenever its occurrence is the first age-like occurrence
in the query. -/
theorem c4_amended (q : String) (i n : Nat) (h : ageMatchAt q.data i = some n)
    (hmin : ∀ j, j < i → ageMatchAt q.data j = none) :
    (Query.QueryParser.parse q).age = some n := by
  have hle : i ≤ q.data.length := by
    by_contra hgt
    push_neg at hgt
    unfold ageMatchAt at h
    rw [List.drop_eq_nil_of_le (by omega)] at h
    exact Option.noConfusion (show (none : Option Nat) = some n from h)
  show reSearch (fun i => ageMatchAt q.data i) q.data = some n
  exact scanFirst_eq_some _ _ _ i n (Nat.zero_le i) (by omega) h (fun j _ hj2 => hmin j hj2)

/-- C4 witness: on `"46M"` the bare-token alternative matches at
position 0 and the parsed age is 46. -/
theorem c4_amended_witness : (Query.QueryParser.parse "46M").age = some 46 :=
  c4_amended "46M" 0 46 (by decide) (fun j hj => absurd hj (Nat.not_lt_zero j))

/-- C5: `policy_duration_months` is exactly the value of the first
(leftmost) occurrence of the duration pattern `(\d+)` optionally
separated by hyphen/space from `month`/`mo` (parsing the leading
integer; the trailing `policy`/`old` qualifier is optional and never
needed), and for example a query that is just `"18 months"` yields
18. -/
theorem c5_duration_first_occurrence (q : String) (n : Nat) :
    ((Query.QueryParser.parse q).policy_duration_months = some n ↔
      ∃ i, tryDur (q.data.drop i) = some n ∧ ∀ j, j < i → tryDur (q.data.drop j) = none) ∧
    (Query.QueryParser.parse "18 months").policy_duration_months = some 18 := by
  constructor
  · constructor
    · intro h
      have h' : reSearch (fun i => tryDur (q.data.drop i)) q.data = some n := h
      obtain ⟨i, _, _, hi, hmin⟩ := scanFirst_some_exists _ _ _ _ h'
      exact ⟨i, hi, fun j hj => hmin j (Nat.zero_le j) hj⟩
    · rintro ⟨i, hi, hmin⟩
      have hle : i ≤ q.data.length := by
        by_contra hgt
        push_neg at hgt
        rw [List.drop_eq_nil_of_le (by omega)] at hi
        exact Option.noConfusion (show (none : Option Nat) = some n from hi)
      show reSearch (fun i => tryDur (q.data.drop i)) q.data = some n
      exact scanFirst_eq_some _ _ _ i n (Nat.zero_le i) (by omega) hi (fun j _ hj2 => hmin j hj2)
  · decide

/-- `re.search` of a literal succeeds exactly when the literal matches
at some start position. -/
theorem ciSearchB_iff (pat : List Char) :
    ∀ s : List Char, ciSearchB pat s = true ↔ ∃ i, ciStartsB pat (s.drop i) = true := by
  intro s
  induction s with
  | nil =>
    constructor
    · intro h; exact ⟨0, h⟩
    · rintro ⟨i, hi⟩
      rw [List.drop_nil] at hi
      exact hi
  | cons c t ih =>
    simp only [ciSearchB, Bool.or_eq_true]
    constructor
    · rintro (h | h)
      · exact ⟨0, h⟩
      · obtain ⟨i, hi⟩ := ih.mp h
        exact ⟨i + 1, hi⟩
    · rintro ⟨i, hi⟩
      cases i with
      | zero => exact Or.inl hi
      | succ i => exact Or.inr (ih.mpr ⟨i, hi⟩)

/-- C3: the procedure field is always `null` (when no list entry occurs
case-insensitively in the query) or the canonical list entry of earliest
list position whose text occurs case-insensitively as a substring of the
query — the stored value is the verbatim list entry. -/
theorem c3_procedure_invariant (q : String) :
    ((Query.QueryParser.parse q).procedure = none ∧
      ∀ e ∈ Query.SUPPORTED_PROCEDURES, ¬ ∃ i, ciStartsB e.data (q.data.drop i) = true) ∨
    (∃ k, ∃ hk : k < Query.SUPPORTED_PROCEDURES.length,
      (Query.QueryParser.parse q).procedure =
        some (Query.SUPPORTED_PROCEDURES.get ⟨k, hk⟩) ∧
      (∃ i, ciStartsB (Query.SUPPORTED_PROCEDURES.get ⟨k, hk⟩).data (q.data.drop i) = true) ∧
      ∀ j, (hj : j < k) →
        ¬ ∃ i, ciStartsB (Query.SUPPORTED_PROCEDURES.get
            ⟨j, Nat.lt_trans hj hk⟩).data (q.data.drop i) = true) := by
  rcases hf : Query.SUPPORTED_PROCEDURES.find? (fun p => ciSearchB p.data q.data) with _ | e
  · left
    constructor
    · rw [Query.parse_procedure_def, hf]
    · intro e he hex
      have hne := List.find?_eq_none.mp hf e he
      exact hne ((ciSearchB_iff e.data q.data).mpr hex)
  · right
    obtain ⟨hPe, k, hk, hgetk, hmin⟩ := List.find?_eq_some_iff_getElem.mp hf
    refine ⟨k, hk, ?_, ?_, ?_⟩
    · rw [Query.parse_procedure_def, hf]
      exact congrArg some ((List.get_eq_getElem _ _).trans hgetk).symm
    · refine (ciSearchB_iff _ _).mp ?_
      rw [List.get_eq_getElem, hgetk]
      exact hPe
    · intro j hj hex
      have hbang := hmin j hj
      rw [Bool.not_eq_eq_eq_not, Bool.not_true] at hbang
      have : ciSearchB (Query.SUPPORTED_PROCEDURES.get ⟨j, Nat.lt_trans hj hk⟩).data q.data
          = true := (ciSearchB_iff _ _).mpr hex
      rw [List.get_eq_getElem] at this
      rw [this] at hbang
      exact Bool.noConfusion hbang

/-- A digit is unchanged by ASCII lowercasing. -/
theorem lowc_digit {c : Char} (h : isDigitB c = true) : lowc c = c := by
  obtain ⟨h1, h2⟩ := of_decide_eq_true h
  unfold lowc
  rw [if_neg]
  omega

/-- A digit differs from any non-digit character. -/
theorem digit_ne {c d : Char} (h : isDigitB c = true) (hd : isDigitB d = false) : c ≠ d := by
  intro he
  rw [he] at h
  rw [h] at hd
  exact Bool.noConfusion hd

/-- The optional separator consumes nothing in front of a digit. -/
theorem sepOpt_digit {c : Char} (h : isDigitB c = true) (t : List Char) :
    sepOpt (c :: t) = c :: t := by
  show (if c = '-' ∨ c = ' ' then t else c :: t) = c :: t
  rw [if_neg]
  rintro (he | he)
  · exact digit_ne h (by decide) he
  · exact digit_ne h (by decide) he

/-- The `year[- ]old` tail never matches at a digit. -/
theorem yearOldB_digit {c : Char} (h : isDigitB c = true) (t : List Char) :
    yearOldB (c :: t) = false := by
  have hyc : ('y' : Char) ≠ c := Ne.symm (digit_ne h (by decide))
  unfold yearOldB
  rw [sepOpt_digit h t]
  rw [show eatCI ['y', 'e', 'a', 'r'] (c :: t) = none from by
    simp only [eatCI]
    rw [show lowc 'y' = 'y' from rfl, lowc_digit h]
    exact if_neg hyc]

/-- Neither age alternative matches at a position followed by three
digits: the two-digit group must be followed by the `year` tail or an
`M`, and a digit is neither. -/
theorem tryAge_three_digits (p : Option Char) {c1 c2 c3 : Char} (rest : List Char)
    (h3 : isDigitB c3 = true) :
    tryAge p (c1 :: c2 :: c3 :: rest) = none := by
  unfold tryAge
  rw [show tryAge1 (c1 :: c2 :: c3 :: rest) = none from by
    simp [tryAge1, yearOldB_digit h3 rest]]
  simp [tryAgeM, lowc_digit h3, (digit_ne h3 (by decide) : c3 ≠ 'm')]

/-- When the first alternative hits, the alternation returns its value
regardless of the boundary context. -/
theorem tryAge_age1 {s : List Char} {v : Nat} (p : Option Char) (h : tryAge1 s = some v) :
    tryAge p s = some v := by
  unfold tryAge
  rw [h]

/-- C10: when the query's age phrase writes the number with three or
more digits followed by the `year[- ]old` tail (and no age pattern
occurs earlier in the query), `parse` still returns a non-null age: the
number formed by the last two digits before the tail (e.g. 2 for
`"102-year-old"`), because the age pattern captures exactly two digits
and is not anchored to a number boundary. -/
theorem c10_long_age_number (q : String) (a d : List Char) (c1 c2 : Char) (t : List Char)
    (hq : q.data = a ++ (d ++ [c1, c2]) ++ t)
    (hdig : ∀ c ∈ d ++ [c1, c2], isDigitB c = true)
    (_hd : d ≠ [])
    (hyo : yearOldB t = true)
    (hbefore : ∀ j, j < a.length → ageMatchAt q.data j = none) :
    (Query.QueryParser.parse q).age = some (10 * digitVal c1 + digitVal c2) := by
  have hc1 : isDigitB c1 = true := hdig c1 (by simp)
  have hc2 : isDigitB c2 = true := hdig c2 (by simp)
  have hdropMatch : q.data.drop (a.length + d.length) = c1 :: c2 :: t := by
    rw [hq]
    rw [show a ++ (d ++ [c1, c2]) ++ t = (a ++ d) ++ (c1 :: c2 :: t) from by simp]
    rw [show a.length + d.length = (a ++ d).length from by simp]
    exact List.drop_left _ _
  have hmatch : ageMatchAt q.data (a.length + d.length) =
      some (10 * digitVal c1 + digitVal c2) := by
    unfold ageMatchAt
    rw [hdropMatch]
    exact tryAge_age1 _ (by simp [tryAge1, hc1, hc2, hyo])
  have hmid : ∀ k, k < d.length → ageMatchAt q.data (a.length + k) = none := by
    intro k hk
    rcases hD : (d ++ [c1, c2]).drop k with _ | ⟨e1, _ | ⟨e2, _ | ⟨e3, s⟩⟩⟩
    · have := congrArg List.length hD
      simp [List.length_drop] at this
      omega
    · have := congrArg List.length hD
      simp [List.length_drop] at this
      omega
    · have := congrArg List.length hD
      simp [List.length_drop] at this
      omega
    · have he3 : isDigitB e3 = true := by
        refine hdig e3 (List.drop_subset k (d ++ [c1, c2]) ?_)
        rw [hD]
        exact List.mem_cons_of_mem _ (List.mem_cons_of_mem _ (List.mem_cons_self _ _))
      have hdropk : q.data.drop (a.length + k) = e1 :: e2 :: e3 :: (s ++ t) := by
        rw [hq, List.drop_append_eq_append_drop]
        rw [List.drop_append k]
        rw [show a.length + k - (a ++ (d ++ [c1, c2])).length = 0 from by
          simp [List.length_append]
          omega]
        rw [List.drop_zero, hD]
        rfl
      unfold ageMatchAt
      rw [hdropk]
      exact tryAge_three_digits _ _ he3
  have hlen : a.length + d.length ≤ q.data.length := by
    have h2 := congrArg List.length hq
    simp only [List.length_append, List.length_cons, List.length_nil] at h2
    omega
  show reSearch (fun i => ageMatchAt q.data i) q.data = some (10 * digitVal c1 + digitVal c2)
  refine scanFirst_eq_some _ _ 0 (a.length + d.length) _ (Nat.zero_le _) (by omega) hmatch ?_
  intro j _ hj
  by_cases hja : j < a.length
  · exact hbefore j hja
  · have hk : j - a.length < d.length := by omega
    have hmk := hmid (j - a.length) hk
    rw [show a.length + (j - a.length) = j from by omega] at hmk
    exact hmk

/-- C10 witness: `"102-year-old"` parses to age 2 (the last two digits
of 102). -/
theorem c10_long_age_number_witness : (Query.QueryParser.parse "102-year-old").age = some 2 :=
  c10_long_age_number "102-year-old" [] ['1'] '0' '2' "-year-old".data (by decide) (by decide)
    (by decide) (by decide) (fun j hj => by simp at hj)

/-- Dropping a matched whitespace run never lengthens a list. -/
theorem length_dropWhile_le (p : Char → Bool) (l : List Char) :
    (l.dropWhile p).length ≤ l.length := by
  induction l with
  | nil => simp [List.dropWhile]
  | cons c t ih =>
    rw [List.dropWhile_cons]
    by_cases hp : p c = true
    · rw [if_pos hp]
      exact Nat.le_succ_of_le ih
    · rw [if_neg hp]

/-- Stripping never lengthens a list. -/
theorem length_strip_le (l : List Char) : (strip l).length ≤ l.length := by
  have h1 := length_dropWhile_le isSpaceB l
  have h2 := length_dropWhile_le isSpaceB (l.dropWhile isSpaceB).reverse
  simp only [List.length_reverse] at h2
  simp only [strip, trimLeft, List.length_reverse]
  omega

/-- Replacing newlines by spaces preserves the length. -/
theorem length_replaceNL (l : List Char) : (replaceNL l).length = l.length := by
  simp [replaceNL]

/-- A clipped slice has at most `b - a` characters. -/
theorem length_pySlice_le (l : List Char) (a b : Nat) : (pySlice l a b).length ≤ b - a := by
  simp only [pySlice, List.length_take, List.length_drop]
  exact min_le_left _ _

/-- No newline survives the replacement. -/
theorem no_newline_replaceNL (l : List Char) : ∀ ch ∈ replaceNL l, ch ≠ '\n' := by
  intro ch hch
  obtain ⟨x, _, hfx⟩ := List.mem_map.mp hch
  by_cases hxn : x = '\n'
  · rw [← hfx, if_pos hxn]
    decide
  · rw [← hfx, if_neg hxn]
    exact hxn

/-- Every position recorded by the match scan is a real match. -/
theorem mem_findAllAux (pat doc : List Char) :
    ∀ (fuel i j : Nat), j ∈ findAllAux pat doc i fuel → ciStartsB pat (doc.drop j) = true := by
  intro fuel
  induction fuel with
  | zero =>
    intro i j h
    simp [findAllAux] at h
  | succ fuel ih =>
    intro i j h
    unfold findAllAux at h
    by_cases hcs : ciStartsB pat (doc.drop i) = true
    · rw [if_pos hcs] at h
      rcases List.mem_cons.mp h with rfl | h2
      · exact hcs
      · exact ih _ _ h2
    · rw [if_neg hcs] at h
      exact ih _ _ h

/-- A successful case-insensitive literal match consumes the pattern. -/
theorem eatCI_length : ∀ (pat s r : List Char), eatCI pat s = some r → pat.length ≤ s.length := by
  intro pat
  induction pat with
  | nil =>
    intro s r _
    simp
  | cons p ps ih =>
    intro s r h
    cases s with
    | nil => exact absurd h (by simp [eatCI])
    | cons c cs =>
      simp only [eatCI] at h
      by_cases hl : lowc p = lowc c
      · rw [if_pos hl] at h
        have := ih cs r h
        simp only [List.length_cons]
        omega
      · rw [if_neg hl] at h
        exact absurd h (by simp)

/-- A match at the head of `s` fits inside `s`. -/
theorem ciStartsB_length {pat s : List Char} (h : ciStartsB pat s = true) :
    pat.length ≤ s.length := by
  unfold ciStartsB at h
  cases he : eatCI pat s with
  | none =>
    rw [he] at h
    exact absurd h (by simp)
  | some r => exact eatCI_length pat s r he

/-- A non-empty string has non-empty character data. -/
theorem data_ne_nil_of_ne_empty {p : String} (h : p ≠ "") : p.data ≠ [] := by
  intro hd
  apply h
  cases p with
  | mk data =>
    simp only at hd
    rw [hd]

set_option maxRecDepth 100000 in
/-- C6 counterexample: on a 308-character document whose `dialysis`
mention has 100 characters before it and 200 after, the single returned
clause has text length 308 > 300, refuting the claimed 300-character
bound. -/
theorem c6_counterexample :
    (App.ClauseRetriever.retrieve_clauses [c6doc] ["policy.txt"]
        ⟨none, some "dialysis", none, none⟩).map (fun c => c.clause.length) = [308] ∧
    ¬ (308 ≤ 300) := by
  constructor
  · decide
  · decide

/-- C6 amended: every clause returned by the Clause Locator has text
length at most 300 plus the length of the matched procedure string (100
before + the exact match length + 200 after, minus boundary
clipping). -/
theorem c6_amended (documents filenames : List String) (pq : ParsedQuery) (p : String)
    (c : Clause) (hp : pq.procedure = some p)
    (hc : c ∈ App.ClauseRetriever.retrieve_clauses documents filenames pq) :
    c.clause.length ≤ 300 + p.length := by
  simp only [App.ClauseRetriever.retrieve_clauses, hp] at hc
  by_cases hne : p = ""
  · rw [if_pos hne] at hc
    exact absurd hc (by simp)
  · rw [if_neg hne] at hc
    obtain ⟨df, _, hc2⟩ := List.mem_flatMap.mp hc
    obtain ⟨ms, _, hceq⟩ := List.mem_map.mp hc2
    subst hceq
    show (replaceNL (strip (pySlice df.1.data (ms - 100)
        (min df.1.data.length (ms + p.data.length + 200))))).length ≤ 300 + p.data.length
    rw [length_replaceNL]
    refine le_trans (length_strip_le _) (le_trans (length_pySlice_le _ _ _) ?_)
    have hmin := Nat.min_le_right df.1.data.length (ms + p.data.length + 200)
    omega

/-- C6 witness: a one-match one-document instance where the bound
holds. -/
theorem c6_amended_witness :
    (⟨"dialysis", "d.txt"⟩ : Clause).clause.length ≤ 300 + ("dialysis" : String).length :=
  c6_amended ["dialysis"] ["d.txt"] ⟨none, some "dialysis", none, none⟩ "dialysis"
    ⟨"dialysis", "d.txt"⟩ rfl (by decide)

/-- C7 counterexample: on a document containing two consecutive
newlines after the match, the returned clause text keeps one space per
newline (`"dialysis a  b"`, two spaces), while the claimed
collapse-a-run-to-a-single-space transformation would give
`"dialysis a b"`; the two differ. -/
theorem c7_counterexample :
    App.ClauseRetriever.retrieve_clauses ["dialysis a\n\nb"] ["policy.txt"]
        ⟨none, some "dialysis", none, none⟩ = [⟨"dialysis a  b", "policy.txt"⟩] ∧
    String.mk (collapseNLRuns (strip (pySlice ("dialysis a\n\nb").data 0 13))) =
      "dialysis a b" ∧
    ("dialysis a  b" : String) ≠ "dialysis a b" := by
  refine ⟨by decide, by decide, by decide⟩

/-- C7 amended: every returned clause is the window of up to 100
characters before the match start and up to 200 after the match end,
clipped to the document's boundaries (the match itself lies inside the
document, so nothing is read out of range), with leading/trailing
whitespace trimmed and each embedded newline replaced by a single space
(a run of k newlines becomes k spaces); consequently no newline remains
in the clause text. -/
theorem c7_amended (documents filenames : List String) (pq : ParsedQuery) (p : String)
    (c : Clause) (hp : pq.procedure = some p)
    (hc : c ∈ App.ClauseRetriever.retrieve_clauses documents filenames pq) :
    ∃ df ∈ documents.zip filenames, ∃ ms,
      ciStartsB p.data (df.1.data.drop ms) = true ∧
      ms + p.data.length ≤ df.1.data.length ∧
      c.document = df.2 ∧
      c.clause = String.mk (replaceNL (strip (pySlice df.1.data (ms - 100)
        (min df.1.data.length (ms + p.data.length + 200))))) ∧
      ∀ ch ∈ c.clause.data, ch ≠ '\n' := by
  simp only [App.ClauseRetriever.retrieve_clauses, hp] at hc
  by_cases hne : p = ""
  · rw [if_pos hne] at hc
    exact absurd hc (by simp)
  · rw [if_neg hne] at hc
    obtain ⟨df, hdf, hc2⟩ := List.mem_flatMap.mp hc
    obtain ⟨ms, hms, hceq⟩ := List.mem_map.mp hc2
    subst hceq
    have hstart : ciStartsB p.data (df.1.data.drop ms) = true :=
      mem_findAllAux p.data df.1.data _ _ _ hms
    have hfit : ms + p.data.length ≤ df.1.data.length := by
      have hlen := ciStartsB_length hstart
      rw [List.length_drop] at hlen
      have hpos : 0 < p.data.length :=
        List.length_pos.mpr (data_ne_nil_of_ne_empty hne)
      omega
    exact ⟨df, hdf, ms, hstart, hfit, rfl, rfl, no_newline_replaceNL _⟩

/-- C7 witness: a clean one-match instance of the window
characterization. -/
theorem c7_amended_witness :
    ∃ df ∈ (["dialysis"] : List String).zip (["d.txt"] : List String), ∃ ms,
      ciStartsB ("dialysis" : String).data (df.1.data.drop ms) = true ∧
      ms + ("dialysis" : String).data.length ≤ df.1.data.length ∧
      (⟨"dialysis", "d.txt"⟩ : Clause).document = df.2 ∧
      (⟨"dialysis", "d.txt"⟩ : Clause).clause = String.mk (replaceNL (strip
        (pySlice df.1.data (ms - 100)
          (min df.1.data.length (ms + ("dialysis" : String).data.length + 200))))) ∧
      ∀ ch ∈ (⟨"dialysis", "d.txt"⟩ : Clause).clause.data, ch ≠ '\n' :=
  c7_amended ["dialysis"] ["d.txt"] ⟨none, some "dialysis", none, none⟩ "dialysis"
    ⟨"dialysis", "d.txt"⟩ rfl (by decide)
